import Mathlib

/-!
# xyaml: path-addressed YAML mutation and placeholder substitution

Shallow embedding of the core of `src/main.rs` of the `xyaml` tool:

* `Yaml` embeds the parsed-tree data structure (`serde_yaml::Value`);
  numbers are embedded as integers (the claims under study involve no
  floating point), mappings as insertion-ordered association lists with
  lookup by structural equality, exactly as the spec's data model states.
* `update_value` embeds the function of the same name (main.rs:254-295):
  the in-place mutation through nested mutable references is embedded
  functionally, returning `Except UpdateError Yaml`; every failure site of
  the Rust function (`fail!`, which prints and exits before the single
  final write `*current_obj = ...`) becomes an `UpdateError` constructor,
  so an `.error` result corresponds to the process exiting with the
  document untouched.
* `substitute_env` / `do_substitute_env` embed the substitution pass
  (main.rs:225-252); the process environment and the YAML parser for
  environment values are passed as explicit functions, since both are
  external collaborators of the core.

The YAML (de)serialization primitives themselves are external
collaborators per the spec; path specs and replacement values enter the
embedding already parsed.
-/

/-- The parsed-document tree (`serde_yaml::Value`): null, bool, number,
string, sequence, mapping.  Numbers are embedded as integers; mappings
preserve insertion order and look keys up by equality. -/
inductive Yaml where
  | null : Yaml
  | bool : Bool → Yaml
  | num : Int → Yaml
  | str : String → Yaml
  | seq : List Yaml → Yaml
  | map : List (Yaml × Yaml) → Yaml
deriving Repr

mutual

/-- Structural equality of tree values (`PartialEq` on `serde_yaml::Value`,
restricted to the variants of the embedding). -/
def Yaml.beq : Yaml → Yaml → Bool
  | .null, .null => true
  | .bool a, .bool b => a == b
  | .num a, .num b => a == b
  | .str a, .str b => a == b
  | .seq a, .seq b => Yaml.beqList a b
  | .map a, .map b => Yaml.beqPairs a b
  | _, _ => false

/-- Elementwise structural equality of sequences. -/
def Yaml.beqList : List Yaml → List Yaml → Bool
  | [], [] => true
  | a :: as, b :: bs => Yaml.beq a b && Yaml.beqList as bs
  | _, _ => false

/-- Entrywise structural equality of mappings. -/
def Yaml.beqPairs : List (Yaml × Yaml) → List (Yaml × Yaml) → Bool
  | [], [] => true
  | (ka, va) :: as, (kb, vb) :: bs =>
      Yaml.beq ka kb && Yaml.beq va vb && Yaml.beqPairs as bs
  | _, _ => false

end

mutual

def Yaml.eq_of_beq : ∀ (a b : Yaml), Yaml.beq a b = true → a = b
  | .null, .null, _ => rfl
  | .bool a, .bool b, h => by
      simp only [Yaml.beq, beq_iff_eq] at h; exact congrArg Yaml.bool h
  | .num a, .num b, h => by
      simp only [Yaml.beq, beq_iff_eq] at h; exact congrArg Yaml.num h
  | .str a, .str b, h => by
      simp only [Yaml.beq, beq_iff_eq] at h; exact congrArg Yaml.str h
  | .seq a, .seq b, h => congrArg Yaml.seq (Yaml.eqList_of_beqList a b h)
  | .map a, .map b, h => congrArg Yaml.map (Yaml.eqPairs_of_beqPairs a b h)

def Yaml.eqList_of_beqList :
    ∀ (a b : List Yaml), Yaml.beqList a b = true → a = b
  | [], [], _ => rfl
  | a :: as, b :: bs, h => by
      simp only [Yaml.beqList, Bool.and_eq_true] at h
      rw [Yaml.eq_of_beq a b h.1, Yaml.eqList_of_beqList as bs h.2]

def Yaml.eqPairs_of_beqPairs :
    ∀ (a b : List (Yaml × Yaml)), Yaml.beqPairs a b = true → a = b
  | [], [], _ => rfl
  | (ka, va) :: as, (kb, vb) :: bs, h => by
      simp only [Yaml.beqPairs, Bool.and_eq_true] at h
      rw [Yaml.eq_of_beq ka kb h.1.1, Yaml.eq_of_beq va vb h.1.2,
        Yaml.eqPairs_of_beqPairs as bs h.2]

end

mutual

def Yaml.beq_refl : ∀ (a : Yaml), Yaml.beq a a = true
  | .null => rfl
  | .bool a => by simp [Yaml.beq]
  | .num a => by simp [Yaml.beq]
  | .str a => by simp [Yaml.beq]
  | .seq a => Yaml.beqList_refl a
  | .map a => Yaml.beqPairs_refl a

def Yaml.beqList_refl : ∀ (a : List Yaml), Yaml.beqList a a = true
  | [] => rfl
  | a :: as => by
      simp only [Yaml.beqList, Bool.and_eq_true]
      exact ⟨Yaml.beq_refl a, Yaml.beqList_refl as⟩

def Yaml.beqPairs_refl :
    ∀ (a : List (Yaml × Yaml)), Yaml.beqPairs a a = true
  | [] => rfl
  | (ka, va) :: as => by
      simp only [Yaml.beqPairs, Bool.and_eq_true]
      exact ⟨⟨Yaml.beq_refl ka, Yaml.beq_refl va⟩, Yaml.beqPairs_refl as⟩

end

instance : DecidableEq Yaml := fun a b =>
  if h : Yaml.beq a b = true then .isTrue (Yaml.eq_of_beq a b h)
  else .isFalse (fun he => h (he ▸ Yaml.beq_refl a))

/-- `Value::is_null`. -/
def Yaml.isNull : Yaml → Bool
  | .null => true
  | _ => false

/-- One failure site of `update_value`, in source order of `main.rs`:
the messages are, respectively, "Path is not a YAML sequence",
"Multiple sequence indexes are not supported", "Invalid sequence index",
"No entry at index", "No key", "Object at path is not null". -/
inductive UpdateError where
  | malformedPath : UpdateError
  | unsupportedPath : UpdateError
  | invalidIndex : UpdateError
  | noEntryAtIndex : UpdateError
  | noKey : UpdateError
  | preconditionFailed : UpdateError
deriving DecidableEq, Repr

/-- The spec's error taxonomy (spec section 7). -/
inductive ErrCategory where
  | malformedPath : ErrCategory
  | unsupportedPath : ErrCategory
  | pathNotFound : ErrCategory
  | preconditionFailed : ErrCategory
deriving DecidableEq, Repr

/-- Modelled from the spec: the Rust code has no typed errors (each
failure prints a message and exits), so the assignment of failure sites
to the spec's taxonomy follows spec sections 3 and 7: a path spec that is
not a sequence is `MalformedPath`; a multi-element index segment is
`UnsupportedPath`; an index segment whose sole element is not a
non-negative integer "must fail decoding of that segment" (section 3),
hence `MalformedPath`; a missing key or index or a node-type mismatch is
`PathNotFound`; a require-null violation is `PreconditionFailed`. -/
def UpdateError.category : UpdateError → ErrCategory
  | .malformedPath => .malformedPath
  | .unsupportedPath => .unsupportedPath
  | .invalidIndex => .malformedPath
  | .noEntryAtIndex => .pathNotFound
  | .noKey => .pathNotFound
  | .preconditionFailed => .preconditionFailed

/-- `Mapping::get`: first entry with the given key (parsed YAML mappings
have unique keys; lookup is by structural equality of values). -/
def mapGet (entries : List (Yaml × Yaml)) (k : Yaml) : Option Yaml :=
  match entries with
  | [] => none
  | (k1, v) :: rest => if k1 = k then some v else mapGet rest k

/-- Overwrite the value of the first entry holding key `k` (the entry
`Mapping::get_mut` hands out a mutable reference to). -/
def mapSet (entries : List (Yaml × Yaml)) (k : Yaml) (v : Yaml) :
    List (Yaml × Yaml) :=
  match entries with
  | [] => []
  | (k1, v1) :: rest =>
      if k1 = k then (k1, v) :: rest else (k1, v1) :: mapSet rest k v

/-- The segment loop of `update_value` (main.rs:263-294), embedded
functionally: the Rust walk threads a mutable reference `current_obj`
down the tree and performs exactly one write, `*current_obj = new_value`,
after the whole walk and the require-null check have succeeded; the
embedding instead rebuilds the tree around the replaced node, and each
`fail!` site (which exits the process before that single write) becomes
an `.error` result, leaving the caller's document untouched.

Per segment, in the source's order: a sequence-shaped segment of length
other than one fails (`unsupportedPath`); a length-one sequence whose
sole element is not a non-negative integer (`is_u64`) fails
(`invalidIndex`); otherwise the element indexes the current node as a
sequence; a non-sequence segment looks the current node up as a mapping
with the segment itself as key.  The child lookups embed
`Value::get_mut`; the library's behaviour is modelled from the spec
(section 4.2 b and d): index lookup succeeds only on sequence-typed
nodes, key lookup only on mapping-typed nodes, anything else is
`PathNotFound`. -/
def updateAt (segs : List Yaml) (obj : Yaml) (newValue : Yaml)
    (require_null : Bool) : Except UpdateError Yaml :=
  match segs with
  | [] =>
      if require_null && !obj.isNull then .error .preconditionFailed
      else .ok newValue
  | seg :: rest =>
      match seg with
      | .seq s =>
          match s with
          | [idx] =>
              match idx with
              | .num n =>
                  if 0 ≤ n then
                    match obj with
                    | .seq items =>
                        match items[n.toNat]? with
                        | some child =>
                            (updateAt rest child newValue require_null).map
                              (fun c => .seq (items.set n.toNat c))
                        | none => .error .noEntryAtIndex
                    | _ => .error .noEntryAtIndex
                  else .error .invalidIndex
              | _ => .error .invalidIndex
          | _ => .error .unsupportedPath
      | _ =>
          match obj with
          | .map entries =>
              match mapGet entries seg with
              | some child =>
                  (updateAt rest child newValue require_null).map
                    (fun c => .map (mapSet entries seg c))
              | none => .error .noKey
          | _ => .error .noKey

/-- `update_value` (main.rs:254-295).  The path-spec string and the
new-value string are parsed by the external YAML library; the embedding
receives the parsed path spec (`pathSpec`) and parsed new value.  If the
parsed path spec is not a sequence the call fails with "Path is not a
YAML sequence" (`malformedPath`); otherwise the segments are walked in
order by `updateAt`. -/
def update_value (obj : Yaml) (pathSpec : Yaml) (newValue : Yaml)
    (require_null : Bool) : Except UpdateError Yaml :=
  match pathSpec with
  | .seq segments => updateAt segments obj newValue require_null
  | _ => .error .malformedPath

/-- Read-only resolution of one path segment against a node, with
exactly the lookup semantics of the walk in `updateAt`: a well-formed
index segment indexes a sequence, any other segment is a mapping key. -/
def hop (obj : Yaml) (seg : Yaml) : Option Yaml :=
  match seg with
  | .seq s =>
      match s with
      | [.num n] =>
          if 0 ≤ n then
            match obj with
            | .seq items => items[n.toNat]?
            | _ => none
          else none
      | _ => none
  | _ =>
      match obj with
      | .map entries => mapGet entries seg
      | _ => none

/-- The node addressed by a list of segments: the fold of `hop`.  A path
"resolves" in a document exactly when `getPath` returns `some`. -/
def getPath (obj : Yaml) (segs : List Yaml) : Option Yaml :=
  match segs with
  | [] => some obj
  | seg :: rest => (hop obj seg).bind (fun c => getPath c rest)

/-- Write-back of one step of the walk: replace the child addressed by
`seg` inside `obj` with `newChild`, leaving everything else in place
(this is what writing through the mutable reference `Value::get_mut`
hands out amounts to).  On nodes where the segment does not resolve the
function is the identity; those cases are never reached under a
successful walk. -/
def setHop (obj seg newChild : Yaml) : Yaml :=
  match seg with
  | .seq s =>
      match s with
      | [.num n] =>
          if 0 ≤ n then
            match obj with
            | .seq items => .seq (items.set n.toNat newChild)
            | other => other
          else obj
      | _ => obj
  | _ =>
      match obj with
      | .map entries => .map (mapSet entries seg newChild)
      | other => other

/-- Replace the node addressed by `segs` inside `obj` with `v`, leaving
every node not on that path in place: the functional description of the
single write `*current_obj = new_value` performed by `update_value`. -/
def setPath (obj : Yaml) (segs : List Yaml) (v : Yaml) : Yaml :=
  match segs with
  | [] => v
  | seg :: rest =>
      match hop obj seg with
      | some c => setHop obj seg (setPath c rest v)
      | none => obj

/-- A failure site of the substitution pass: "Failed to read the
referred env variable" and "New value is not a valid YAML", each naming
the variable. -/
inductive SubstError where
  | missingEnvVar : String → SubstError
  | invalidValue : String → SubstError
deriving DecidableEq, Repr

/-- The placeholder table built by `substitute_env` (main.rs:226-229):
each declared variable name NAME is keyed by the literal token
`\x7b\x7bNAME\x7d\x7d`. -/
def placeholderTable (vars : List String) : List (String × String) :=
  vars.map (fun v => ("\x7b\x7b" ++ v ++ "\x7d\x7d", v))

mutual

/-- `do_substitute_env` (main.rs:233-252).  `env` is the process
environment and `parse` the external YAML parser, both collaborators
passed explicitly.  Mappings recurse into values only (keys untouched),
sequences recurse into every element, and a string scalar is replaced
exactly when the whole string is a key of the placeholder table: the
replacement is the parsed environment value, inserted without being
revisited.  Missing variables and unparseable values abort the run, which
the embedding reports as `.error`. -/
def do_substitute_env (env : String → Option String)
    (parse : String → Option Yaml) (vars : List (String × String)) :
    Yaml → Except SubstError Yaml
  | .map entries => do
      let entries1 ← substPairs env parse vars entries
      pure (.map entries1)
  | .seq items => do
      let items1 ← substItems env parse vars items
      pure (.seq items1)
  | .str s =>
      match vars.lookup s with
      | some var =>
          match env var with
          | none => .error (.missingEnvVar var)
          | some raw =>
              match parse raw with
              | none => .error (.invalidValue var)
              | some v => .ok v
      | none => .ok (.str s)
  | obj => .ok obj

/-- The `map.iter_mut()` loop of `do_substitute_env`: every value is
substituted in order, keys are left alone. -/
def substPairs (env : String → Option String)
    (parse : String → Option Yaml) (vars : List (String × String)) :
    List (Yaml × Yaml) → Except SubstError (List (Yaml × Yaml))
  | [] => .ok []
  | (k, v) :: rest => do
      let v1 ← do_substitute_env env parse vars v
      let rest1 ← substPairs env parse vars rest
      pure ((k, v1) :: rest1)

/-- The `seq.iter_mut()` loop of `do_substitute_env`: every element is
substituted in order. -/
def substItems (env : String → Option String)
    (parse : String → Option Yaml) (vars : List (String × String)) :
    List Yaml → Except SubstError (List Yaml)
  | [] => .ok []
  | x :: rest => do
      let x1 ← do_substitute_env env parse vars x
      let rest1 ← substItems env parse vars rest
      pure (x1 :: rest1)

end

/-- `substitute_env` (main.rs:225-231): build the placeholder table from
the declared variable names, then run the recursive pass. -/
def substitute_env (env : String → Option String)
    (parse : String → Option Yaml) (vars : List String) (obj : Yaml) :
    Except SubstError Yaml :=
  do_substitute_env env parse (placeholderTable vars) obj

/-- A failure of the transformation pipeline: either a replacement
failed or the substitution pass failed. -/
inductive RunError where
  | update : UpdateError → RunError
  | subst : SubstError → RunError
deriving DecidableEq, Repr

/-- The replacement loop of `main` (main.rs:196-198): the replacement
requests are applied strictly in caller-supplied order, each against the
document produced by the previous one. -/
def apply_replacements (obj : Yaml) (replacements : List (Yaml × Yaml))
    (require_null : Bool) : Except UpdateError Yaml :=
  match replacements with
  | [] => .ok obj
  | (path, value) :: rest =>
      match update_value obj path value require_null with
      | .ok obj1 => apply_replacements obj1 rest require_null
      | .error e => .error e

/-- The transformation core of `main` (main.rs:196-200): all path
replacements first, then the substitution pass exactly once on the
resulting document. -/
def run_transform (obj : Yaml) (replacements : List (Yaml × Yaml))
    (require_null : Bool) (env : String → Option String)
    (parse : String → Option Yaml) (vars : List String) :
    Except RunError Yaml :=
  match apply_replacements obj replacements require_null with
  | .error e => .error (.update e)
  | .ok obj1 =>
      match substitute_env env parse vars obj1 with
      | .error e => .error (.subst e)
      | .ok obj2 => .ok obj2

/-! ## Concrete documents and collaborators used in examples -/

/-- The document of the spec's end-to-end example:
`a: \x7bb: [1, 2, 3]\x7d`. -/
def exDoc : Yaml :=
  .map [(.str "a", .map [(.str "b", .seq [.num 1, .num 2, .num 3])])]

/-- The path of the spec's end-to-end example: `[a, b, [1]]`. -/
def exPath : List Yaml := [.str "a", .str "b", .seq [.num 1]]

/-- A mapping with non-string keys: `2: null` and `true: 7`. -/
def exNonStrKeys : List (Yaml × Yaml) :=
  [(.num 2, .null), (.bool true, .num 7)]

/-- An environment holding `FOO=hello`. -/
def envFoo : String → Option String :=
  fun v => if v = "FOO" then some "hello" else none

/-- A parser fragment: the YAML document `hello` is the string scalar
`hello`. -/
def parseFoo : String → Option Yaml :=
  fun s => if s = "hello" then some (.str "hello") else none

/-- The document of the spec's substitution example. -/
def exSubstDoc : Yaml :=
  .map [(.str "a", .str "\x7b\x7bFOO\x7d\x7d"),
    (.str "b", .str "x\x7b\x7bFOO\x7d\x7dy")]

/-- The expected output of the spec's substitution example. -/
def exSubstOut : Yaml :=
  .map [(.str "a", .str "hello"),
    (.str "b", .str "x\x7b\x7bFOO\x7d\x7dy")]

/-- An environment where variable A holds the literal placeholder text
of variable B, and B holds `zzz`. -/
def envAB : String → Option String :=
  fun v =>
    if v = "A" then some "\x7b\x7bB\x7d\x7d"
    else if v = "B" then some "zzz" else none

/-- A parser fragment mapping the placeholder text of B to the string
scalar holding it, and `zzz` to its string scalar. -/
def parseAB : String → Option Yaml :=
  fun s =>
    if s = "\x7b\x7bB\x7d\x7d" then some (.str "\x7b\x7bB\x7d\x7d")
    else if s = "zzz" then some (.str "zzz") else none

/-- An environment holding `FOO=42`. -/
def envFoo42 : String → Option String :=
  fun v => if v = "FOO" then some "42" else none

/-- A parser fragment: the YAML document `42` is the number 42, and
`null` ones used by the pipeline example. -/
def parseFoo42 : String → Option Yaml :=
  fun s => if s = "42" then some (.num 42) else none

/-- The replacement list of the pipeline example: first set `[a]` to
`\x7bb: null\x7d`, then set `[a, b]` (a path through the node the first
replacement introduced) to the placeholder text of FOO. -/
def exReps : List (Yaml × Yaml) :=
  [(.seq [.str "a"], .map [(.str "b", .null)]),
   (.seq [.str "a", .str "b"], .str "\x7b\x7bFOO\x7d\x7d")]

/-! ## Basic lemmas -/

theorem exceptMap_eq_ok {ε α β : Type} (f : α → β) (e : Except ε α) (b : β) :
    Except.map f e = .ok b ↔ ∃ a, e = .ok a ∧ b = f a := by
  cases e with
  | error err => simp [Except.map]
  | ok a => simp [Except.map, eq_comm]

theorem exceptMap_eq_error {ε α β : Type} (f : α → β) (e : Except ε α)
    (err : ε) : Except.map f e = .error err ↔ e = .error err := by
  cases e <;> simp [Except.map]

theorem Yaml.isNull_iff (y : Yaml) : y.isNull = true ↔ y = .null := by
  cases y <;> simp [Yaml.isNull]

theorem mapGet_mapSet_self (entries : List (Yaml × Yaml)) (k c v : Yaml)
    (h : mapGet entries k = some c) :
    mapGet (mapSet entries k v) k = some v := by
  induction entries with
  | nil => simp [mapGet] at h
  | cons e rest ih =>
      obtain ⟨k1, v1⟩ := e
      by_cases hk : k1 = k
      · simp [mapGet, mapSet, hk]
      · simp only [mapGet, mapSet, if_neg hk] at h ⊢
        exact ih h

theorem mapGet_mapSet_ne (entries : List (Yaml × Yaml)) (k q v : Yaml)
    (h : k ≠ q) : mapGet (mapSet entries k v) q = mapGet entries q := by
  induction entries with
  | nil => simp [mapGet, mapSet]
  | cons e rest ih =>
      obtain ⟨k1, v1⟩ := e
      by_cases hk : k1 = k
      · subst hk
        simp only [mapSet, if_pos rfl, mapGet, if_neg h]
      · simp only [mapSet, if_neg hk, mapGet]
        by_cases hq : k1 = q
        · simp [hq]
        · simp only [if_neg hq]
          exact ih

theorem mapSet_mapSet (entries : List (Yaml × Yaml)) (k a b : Yaml) :
    mapSet (mapSet entries k a) k b = mapSet entries k b := by
  induction entries with
  | nil => simp [mapSet]
  | cons e rest ih =>
      obtain ⟨k1, v1⟩ := e
      by_cases hk : k1 = k
      · simp [mapSet, hk]
      · simp only [mapSet, if_neg hk]
        rw [ih]

/-! ## Unfolding lemmas by segment shape

`hop`, `setHop` and `updateAt` branch first on the shape of the segment,
exactly as the Rust loop body does; these lemmas expose one equation per
shape. -/

theorem hop_key (seg : Yaml) (hseg : ∀ s, seg ≠ .seq s) (obj : Yaml) :
    hop obj seg = (match obj with
      | .map entries => mapGet entries seg
      | _ => none) := by
  cases seg with
  | seq s => exact absurd rfl (hseg s)
  | null => rfl
  | bool b => rfl
  | num n => rfl
  | str s => rfl
  | map m => rfl

theorem hop_index (n : Int) (obj : Yaml) :
    hop obj (.seq [.num n]) =
      (if 0 ≤ n then
        match obj with
        | .seq items => items[n.toNat]?
        | _ => none
      else none) := rfl

theorem hop_badseq (s : List Yaml) (hs : ∀ e, s ≠ [e]) (obj : Yaml) :
    hop obj (.seq s) = none := by
  rcases s with _ | ⟨a, _ | ⟨b, t⟩⟩
  · rfl
  · exact absurd rfl (hs a)
  · cases a <;> rfl

theorem hop_badidx (idx : Yaml) (hidx : ∀ n, idx ≠ .num n) (obj : Yaml) :
    hop obj (.seq [idx]) = none := by
  cases idx with
  | num n => exact absurd rfl (hidx n)
  | null => rfl
  | bool b => rfl
  | str s => rfl
  | seq s => rfl
  | map m => rfl

theorem setHop_key (seg : Yaml) (hseg : ∀ s, seg ≠ .seq s)
    (obj c : Yaml) :
    setHop obj seg c = (match obj with
      | .map entries => .map (mapSet entries seg c)
      | other => other) := by
  cases seg with
  | seq s => exact absurd rfl (hseg s)
  | null => rfl
  | bool b => rfl
  | num n => rfl
  | str s => rfl
  | map m => rfl

theorem setHop_index (n : Int) (obj c : Yaml) :
    setHop obj (.seq [.num n]) c =
      (if 0 ≤ n then
        match obj with
        | .seq items => .seq (items.set n.toNat c)
        | other => other
      else obj) := rfl

theorem updateAt_nil (obj v : Yaml) (rn : Bool) :
    updateAt [] obj v rn =
      (if rn && !obj.isNull then .error .preconditionFailed else .ok v) :=
  rfl

theorem updateAt_key (seg : Yaml) (hseg : ∀ s, seg ≠ .seq s)
    (rest : List Yaml) (obj v : Yaml) (rn : Bool) :
    updateAt (seg :: rest) obj v rn =
      (match obj with
       | .map entries =>
           match mapGet entries seg with
           | some child =>
               Except.map (fun c => .map (mapSet entries seg c))
                 (updateAt rest child v rn)
           | none => .error .noKey
       | _ => .error .noKey) := by
  cases seg with
  | seq s => exact absurd rfl (hseg s)
  | null => rfl
  | bool b => rfl
  | num n => rfl
  | str s => rfl
  | map m => rfl

theorem updateAt_index (n : Int) (rest : List Yaml) (obj v : Yaml)
    (rn : Bool) :
    updateAt (.seq [.num n] :: rest) obj v rn =
      (if 0 ≤ n then
        match obj with
        | .seq items =>
            match items[n.toNat]? with
            | some child =>
                Except.map (fun c => .seq (items.set n.toNat c))
                  (updateAt rest child v rn)
            | none => .error .noEntryAtIndex
        | _ => .error .noEntryAtIndex
      else .error .invalidIndex) := rfl

theorem updateAt_badseq (s : List Yaml) (hs : ∀ e, s ≠ [e])
    (rest : List Yaml) (obj v : Yaml) (rn : Bool) :
    updateAt (.seq s :: rest) obj v rn = .error .unsupportedPath := by
  rcases s with _ | ⟨a, _ | ⟨b, t⟩⟩
  · rfl
  · exact absurd rfl (hs a)
  · cases a <;> rfl

theorem updateAt_badidx (idx : Yaml) (hidx : ∀ n, idx ≠ .num n)
    (rest : List Yaml) (obj v : Yaml) (rn : Bool) :
    updateAt (.seq [idx] :: rest) obj v rn = .error .invalidIndex := by
  cases idx with
  | num n => exact absurd rfl (hidx n)
  | null => rfl
  | bool b => rfl
  | str s => rfl
  | seq s => rfl
  | map m => rfl

/-! ## One-step structure of the walk -/

/-- Successful one-step resolution happens in exactly one of two shapes:
a well-formed index segment against a sequence node, or a non-sequence
segment used as mapping key against a mapping node. -/
theorem hop_eq_some_key (obj seg c : Yaml) (hseg : ∀ s, seg ≠ .seq s)
    (h : hop obj seg = some c) :
    ∃ entries, obj = .map entries ∧ mapGet entries seg = some c := by
  rw [hop_key seg hseg] at h
  cases obj with
  | map entries => exact ⟨entries, rfl, h⟩
  | null => exact Option.noConfusion h
  | bool b => exact Option.noConfusion h
  | num n => exact Option.noConfusion h
  | str s => exact Option.noConfusion h
  | seq s => exact Option.noConfusion h

theorem hop_eq_some (obj seg c : Yaml) (h : hop obj seg = some c) :
    (∃ n items, seg = .seq [.num n] ∧ 0 ≤ n ∧ obj = .seq items ∧
      items[n.toNat]? = some c) ∨
    ((∀ s, seg ≠ .seq s) ∧ ∃ entries, obj = .map entries ∧
      mapGet entries seg = some c) := by
  cases seg with
  | seq s =>
      left
      rcases s with _ | ⟨idx, _ | ⟨b, t⟩⟩
      · rw [hop_badseq _ (fun e he => List.noConfusion he)] at h
        exact Option.noConfusion h
      · cases idx with
        | num n =>
            rw [hop_index] at h
            by_cases hn : 0 ≤ n
            · rw [if_pos hn] at h
              cases obj with
              | seq items => exact ⟨n, items, rfl, hn, rfl, h⟩
              | null => exact Option.noConfusion h
              | bool b2 => exact Option.noConfusion h
              | num n2 => exact Option.noConfusion h
              | str s2 => exact Option.noConfusion h
              | map m2 => exact Option.noConfusion h
            · rw [if_neg hn] at h
              exact Option.noConfusion h
        | null =>
            rw [hop_badidx _ (fun n hn => Yaml.noConfusion hn)] at h
            exact Option.noConfusion h
        | bool b2 =>
            rw [hop_badidx _ (fun n hn => Yaml.noConfusion hn)] at h
            exact Option.noConfusion h
        | str s2 =>
            rw [hop_badidx _ (fun n hn => Yaml.noConfusion hn)] at h
            exact Option.noConfusion h
        | seq s2 =>
            rw [hop_badidx _ (fun n hn => Yaml.noConfusion hn)] at h
            exact Option.noConfusion h
        | map m2 =>
            rw [hop_badidx _ (fun n hn => Yaml.noConfusion hn)] at h
            exact Option.noConfusion h
      · rw [hop_badseq _ (fun e he => by
          have := congrArg List.length he
          simp at this)] at h
        exact Option.noConfusion h
  | null =>
      exact .inr ⟨fun s hs => Yaml.noConfusion hs,
        hop_eq_some_key obj _ c (fun s hs => Yaml.noConfusion hs) h⟩
  | bool b =>
      exact .inr ⟨fun s hs => Yaml.noConfusion hs,
        hop_eq_some_key obj _ c (fun s hs => Yaml.noConfusion hs) h⟩
  | num n =>
      exact .inr ⟨fun s hs => Yaml.noConfusion hs,
        hop_eq_some_key obj _ c (fun s hs => Yaml.noConfusion hs) h⟩
  | str s =>
      exact .inr ⟨fun s hs => Yaml.noConfusion hs,
        hop_eq_some_key obj _ c (fun s hs => Yaml.noConfusion hs) h⟩
  | map m =>
      exact .inr ⟨fun s hs => Yaml.noConfusion hs,
        hop_eq_some_key obj _ c (fun s hs => Yaml.noConfusion hs) h⟩

/-- When one hop resolves, the walk on a longer path factors through the
resolved child, and a success rebuilds the document around it. -/
theorem updateAt_cons (seg : Yaml) (rest : List Yaml) (obj v : Yaml)
    (rn : Bool) (c : Yaml) (h : hop obj seg = some c) :
    updateAt (seg :: rest) obj v rn =
      Except.map (fun x => setHop obj seg x) (updateAt rest c v rn) := by
  rcases hop_eq_some obj seg c h with
    ⟨n, items, hseg, hn, hobj, hget⟩ | ⟨hseg, entries, hobj, hget⟩
  · subst hseg; subst hobj
    simp only [updateAt_index, if_pos hn, hget, setHop_index]
  · subst hobj
    simp only [updateAt_key seg hseg, hget, setHop_key seg hseg]

theorem hop_setHop_self (obj seg c c1 : Yaml) (h : hop obj seg = some c) :
    hop (setHop obj seg c1) seg = some c1 := by
  rcases hop_eq_some obj seg c h with
    ⟨n, items, hseg, hn, hobj, hget⟩ | ⟨hseg, entries, hobj, hget⟩
  · subst hseg; subst hobj
    have hlt : n.toNat < items.length := by
      rw [List.getElem?_eq_some] at hget; exact hget.1
    simp only [setHop_index, if_pos hn, hop_index]
    rw [List.getElem?_set_self (by simpa using hlt)]
  · subst hobj
    simp only [setHop_key seg hseg, hop_key seg hseg]
    exact mapGet_mapSet_self entries seg c c1 hget

theorem setHop_setHop (obj seg c c1 c2 : Yaml)
    (h : hop obj seg = some c) :
    setHop (setHop obj seg c1) seg c2 = setHop obj seg c2 := by
  rcases hop_eq_some obj seg c h with
    ⟨n, items, hseg, hn, hobj, hget⟩ | ⟨hseg, entries, hobj, hget⟩
  · subst hseg; subst hobj
    simp only [setHop_index, if_pos hn, List.set_set]
  · subst hobj
    simp only [setHop_key seg hseg, mapSet_mapSet]

/-- After a successful hop, resolving a different segment at the
rewritten node gives the same child as at the original node. -/
theorem hop_setHop_ne (obj seg c c1 q : Yaml) (h : hop obj seg = some c)
    (hq : q ≠ seg) : hop (setHop obj seg c1) q = hop obj q := by
  rcases hop_eq_some obj seg c h with
    ⟨n, items, hseg, hn, hobj, hget⟩ | ⟨hseg, entries, hobj, hget⟩
  · subst hseg; subst hobj
    simp only [setHop_index, if_pos hn]
    cases q with
    | seq s1 =>
        rcases s1 with _ | ⟨idx, _ | ⟨b, t⟩⟩
        · rw [hop_badseq _ (fun e he => List.noConfusion he),
            hop_badseq _ (fun e he => List.noConfusion he)]
        · cases idx with
          | num m =>
              rw [hop_index, hop_index]
              by_cases hm : 0 ≤ m
              · rw [if_pos hm, if_pos hm]
                have hnm : m.toNat ≠ n.toNat := by
                  intro he
                  exact hq (by
                    have : m = n := by omega
                    rw [this])
                exact List.getElem?_set_ne (by simpa using hnm.symm)
              · rw [if_neg hm, if_neg hm]
          | null =>
              rw [hop_badidx _ (fun n2 hn2 => Yaml.noConfusion hn2),
                hop_badidx _ (fun n2 hn2 => Yaml.noConfusion hn2)]
          | bool b2 =>
              rw [hop_badidx _ (fun n2 hn2 => Yaml.noConfusion hn2),
                hop_badidx _ (fun n2 hn2 => Yaml.noConfusion hn2)]
          | str s2 =>
              rw [hop_badidx _ (fun n2 hn2 => Yaml.noConfusion hn2),
                hop_badidx _ (fun n2 hn2 => Yaml.noConfusion hn2)]
          | seq s2 =>
              rw [hop_badidx _ (fun n2 hn2 => Yaml.noConfusion hn2),
                hop_badidx _ (fun n2 hn2 => Yaml.noConfusion hn2)]
          | map m2 =>
              rw [hop_badidx _ (fun n2 hn2 => Yaml.noConfusion hn2),
                hop_badidx _ (fun n2 hn2 => Yaml.noConfusion hn2)]
        · rw [hop_badseq _ (fun e he => by
            have := congrArg List.length he
            simp at this),
            hop_badseq _ (fun e he => by
            have := congrArg List.length he
            simp at this)]
    | null => rw [hop_key _ (fun s hs => Yaml.noConfusion hs),
        hop_key _ (fun s hs => Yaml.noConfusion hs)]
    | bool b2 => rw [hop_key _ (fun s hs => Yaml.noConfusion hs),
        hop_key _ (fun s hs => Yaml.noConfusion hs)]
    | num m => rw [hop_key _ (fun s hs => Yaml.noConfusion hs),
        hop_key _ (fun s hs => Yaml.noConfusion hs)]
    | str s2 => rw [hop_key _ (fun s hs => Yaml.noConfusion hs),
        hop_key _ (fun s hs => Yaml.noConfusion hs)]
    | map m2 => rw [hop_key _ (fun s hs => Yaml.noConfusion hs),
        hop_key _ (fun s hs => Yaml.noConfusion hs)]
  · subst hobj
    simp only [setHop_key seg hseg]
    cases q with
    | seq s1 =>
        rcases s1 with _ | ⟨idx, _ | ⟨b, t⟩⟩
        · rw [hop_badseq _ (fun e he => List.noConfusion he),
            hop_badseq _ (fun e he => List.noConfusion he)]
        · cases idx with
          | num m =>
              rw [hop_index, hop_index]
          | null =>
              rw [hop_badidx _ (fun n2 hn2 => Yaml.noConfusion hn2),
                hop_badidx _ (fun n2 hn2 => Yaml.noConfusion hn2)]
          | bool b2 =>
              rw [hop_badidx _ (fun n2 hn2 => Yaml.noConfusion hn2),
                hop_badidx _ (fun n2 hn2 => Yaml.noConfusion hn2)]
          | str s2 =>
              rw [hop_badidx _ (fun n2 hn2 => Yaml.noConfusion hn2),
                hop_badidx _ (fun n2 hn2 => Yaml.noConfusion hn2)]
          | seq s2 =>
              rw [hop_badidx _ (fun n2 hn2 => Yaml.noConfusion hn2),
                hop_badidx _ (fun n2 hn2 => Yaml.noConfusion hn2)]
          | map m2 =>
              rw [hop_badidx _ (fun n2 hn2 => Yaml.noConfusion hn2),
                hop_badidx _ (fun n2 hn2 => Yaml.noConfusion hn2)]
        · rw [hop_badseq _ (fun e he => by
            have := congrArg List.length he
            simp at this),
            hop_badseq _ (fun e he => by
            have := congrArg List.length he
            simp at this)]
    | null =>
        rw [hop_key _ (fun s hs => Yaml.noConfusion hs),
          hop_key _ (fun s hs => Yaml.noConfusion hs)]
        exact mapGet_mapSet_ne entries seg _ c1 (fun he => hq he.symm)
    | bool b2 =>
        rw [hop_key _ (fun s hs => Yaml.noConfusion hs),
          hop_key _ (fun s hs => Yaml.noConfusion hs)]
        exact mapGet_mapSet_ne entries seg _ c1 (fun he => hq he.symm)
    | num m =>
        rw [hop_key _ (fun s hs => Yaml.noConfusion hs),
          hop_key _ (fun s hs => Yaml.noConfusion hs)]
        exact mapGet_mapSet_ne entries seg _ c1 (fun he => hq he.symm)
    | str s2 =>
        rw [hop_key _ (fun s hs => Yaml.noConfusion hs),
          hop_key _ (fun s hs => Yaml.noConfusion hs)]
        exact mapGet_mapSet_ne entries seg _ c1 (fun he => hq he.symm)
    | map m2 =>
        rw [hop_key _ (fun s hs => Yaml.noConfusion hs),
          hop_key _ (fun s hs => Yaml.noConfusion hs)]
        exact mapGet_mapSet_ne entries seg _ c1 (fun he => hq he.symm)

/-! ## Path-level structure of the walk -/

theorem exceptMap_id {ε α : Type} (e : Except ε α) :
    Except.map (fun x => x) e = e := by
  cases e <;> rfl

theorem exceptMap_map {ε α β γ : Type} (f : β → γ) (g : α → β)
    (e : Except ε α) :
    Except.map f (Except.map g e) = Except.map (fun x => f (g x)) e := by
  cases e <;> rfl

theorem getPath_append (obj : Yaml) (A B : List Yaml) :
    getPath obj (A ++ B) = (getPath obj A).bind (fun c => getPath c B) := by
  induction A generalizing obj with
  | nil => simp [getPath]
  | cons seg rest ih =>
      simp only [List.cons_append, getPath]
      cases hop obj seg with
      | none => rfl
      | some c => exact ih c

/-! Second-level unfolding: segment shape crossed with node shape. -/

theorem hop_key_map (seg : Yaml) (hseg : ∀ s, seg ≠ .seq s)
    (entries : List (Yaml × Yaml)) :
    hop (.map entries) seg = mapGet entries seg := by
  rw [hop_key seg hseg]

theorem hop_key_notmap (seg : Yaml) (hseg : ∀ s, seg ≠ .seq s)
    (obj : Yaml) (hobj : ∀ e, obj ≠ .map e) :
    hop obj seg = none := by
  rw [hop_key seg hseg]
  cases obj with
  | map e => exact absurd rfl (hobj e)
  | null => rfl
  | bool b => rfl
  | num n => rfl
  | str s => rfl
  | seq s => rfl

theorem hop_index_seq (n : Int) (hn : 0 ≤ n) (items : List Yaml) :
    hop (.seq items) (.seq [.num n]) = items[n.toNat]? := by
  rw [hop_index, if_pos hn]

theorem hop_index_notseq (n : Int) (obj : Yaml)
    (hobj : ∀ items, obj ≠ .seq items) :
    hop obj (.seq [.num n]) = none := by
  rw [hop_index]
  by_cases hn : 0 ≤ n
  · rw [if_pos hn]
    cases obj with
    | seq items => exact absurd rfl (hobj items)
    | null => rfl
    | bool b => rfl
    | num m => rfl
    | str s => rfl
    | map m => rfl
  · rw [if_neg hn]

theorem hop_index_neg (n : Int) (hn : ¬ 0 ≤ n) (obj : Yaml) :
    hop obj (.seq [.num n]) = none := by
  rw [hop_index, if_neg hn]

theorem updateAt_key_map (seg : Yaml) (hseg : ∀ s, seg ≠ .seq s)
    (rest : List Yaml) (entries : List (Yaml × Yaml)) (v : Yaml)
    (rn : Bool) :
    updateAt (seg :: rest) (.map entries) v rn =
      (match mapGet entries seg with
       | some child =>
           Except.map (fun c => .map (mapSet entries seg c))
             (updateAt rest child v rn)
       | none => .error .noKey) := by
  rw [updateAt_key seg hseg]

theorem updateAt_key_notmap (seg : Yaml) (hseg : ∀ s, seg ≠ .seq s)
    (rest : List Yaml) (obj v : Yaml) (rn : Bool)
    (hobj : ∀ e, obj ≠ .map e) :
    updateAt (seg :: rest) obj v rn = .error .noKey := by
  rw [updateAt_key seg hseg]
  cases obj with
  | map e => exact absurd rfl (hobj e)
  | null => rfl
  | bool b => rfl
  | num n => rfl
  | str s => rfl
  | seq s => rfl

theorem updateAt_index_seq (n : Int) (hn : 0 ≤ n) (rest : List Yaml)
    (items : List Yaml) (v : Yaml) (rn : Bool) :
    updateAt (.seq [.num n] :: rest) (.seq items) v rn =
      (match items[n.toNat]? with
       | some child =>
           Except.map (fun c => .seq (items.set n.toNat c))
             (updateAt rest child v rn)
       | none => .error .noEntryAtIndex) := by
  rw [updateAt_index, if_pos hn]

theorem updateAt_index_notseq (n : Int) (hn : 0 ≤ n) (rest : List Yaml)
    (obj v : Yaml) (rn : Bool) (hobj : ∀ items, obj ≠ .seq items) :
    updateAt (.seq [.num n] :: rest) obj v rn = .error .noEntryAtIndex := by
  rw [updateAt_index, if_pos hn]
  cases obj with
  | seq items => exact absurd rfl (hobj items)
  | null => rfl
  | bool b => rfl
  | num m => rfl
  | str s => rfl
  | map m => rfl

theorem updateAt_index_neg (n : Int) (hn : ¬ 0 ≤ n) (rest : List Yaml)
    (obj v : Yaml) (rn : Bool) :
    updateAt (.seq [.num n] :: rest) obj v rn = .error .invalidIndex := by
  rw [updateAt_index, if_neg hn]

/-- When the hop at the head segment fails, the whole walk fails. -/
theorem updateAt_cons_err (seg : Yaml) (rest : List Yaml) (obj v : Yaml)
    (rn : Bool) (hc : hop obj seg = none) :
    ∃ e, updateAt (seg :: rest) obj v rn = .error e := by
  cases seg with
  | seq s =>
      rcases s with _ | ⟨idx, _ | ⟨b, t⟩⟩
      · exact ⟨.unsupportedPath,
          updateAt_badseq _ (fun e he => List.noConfusion he) rest obj v rn⟩
      · cases idx with
        | num n =>
            by_cases hn : 0 ≤ n
            · cases obj with
              | seq items =>
                  have hc2 : items[n.toNat]? = none := by
                    rw [hop_index_seq n hn] at hc; exact hc
                  refine ⟨.noEntryAtIndex, ?_⟩
                  rw [updateAt_index_seq n hn, hc2]
              | null =>
                  exact ⟨.noEntryAtIndex, updateAt_index_notseq n hn rest _ v rn
                    (fun items his => Yaml.noConfusion his)⟩
              | bool b2 =>
                  exact ⟨.noEntryAtIndex, updateAt_index_notseq n hn rest _ v rn
                    (fun items his => Yaml.noConfusion his)⟩
              | num n2 =>
                  exact ⟨.noEntryAtIndex, updateAt_index_notseq n hn rest _ v rn
                    (fun items his => Yaml.noConfusion his)⟩
              | str s2 =>
                  exact ⟨.noEntryAtIndex, updateAt_index_notseq n hn rest _ v rn
                    (fun items his => Yaml.noConfusion his)⟩
              | map m2 =>
                  exact ⟨.noEntryAtIndex, updateAt_index_notseq n hn rest _ v rn
                    (fun items his => Yaml.noConfusion his)⟩
            · exact ⟨.invalidIndex, updateAt_index_neg n hn rest obj v rn⟩
        | null =>
            exact ⟨.invalidIndex,
              updateAt_badidx _ (fun n h2 => Yaml.noConfusion h2) rest obj v rn⟩
        | bool b2 =>
            exact ⟨.invalidIndex,
              updateAt_badidx _ (fun n h2 => Yaml.noConfusion h2) rest obj v rn⟩
        | str s2 =>
            exact ⟨.invalidIndex,
              updateAt_badidx _ (fun n h2 => Yaml.noConfusion h2) rest obj v rn⟩
        | seq s2 =>
            exact ⟨.invalidIndex,
              updateAt_badidx _ (fun n h2 => Yaml.noConfusion h2) rest obj v rn⟩
        | map m2 =>
            exact ⟨.invalidIndex,
              updateAt_badidx _ (fun n h2 => Yaml.noConfusion h2) rest obj v rn⟩
      · exact ⟨.unsupportedPath, updateAt_badseq _ (fun e he => by
          have := congrArg List.length he
          simp at this) rest obj v rn⟩
  | null =>
      have hseg : ∀ s, Yaml.null ≠ Yaml.seq s := fun s hs => Yaml.noConfusion hs
      cases obj with
      | map entries =>
          have hc2 : mapGet entries Yaml.null = none := by
            rw [hop_key_map _ hseg] at hc; exact hc
          refine ⟨.noKey, ?_⟩
          rw [updateAt_key_map _ hseg, hc2]
      | null => exact ⟨.noKey, updateAt_key_notmap _ hseg rest _ v rn
          (fun e he => Yaml.noConfusion he)⟩
      | bool b2 => exact ⟨.noKey, updateAt_key_notmap _ hseg rest _ v rn
          (fun e he => Yaml.noConfusion he)⟩
      | num n2 => exact ⟨.noKey, updateAt_key_notmap _ hseg rest _ v rn
          (fun e he => Yaml.noConfusion he)⟩
      | str s2 => exact ⟨.noKey, updateAt_key_notmap _ hseg rest _ v rn
          (fun e he => Yaml.noConfusion he)⟩
      | seq s2 => exact ⟨.noKey, updateAt_key_notmap _ hseg rest _ v rn
          (fun e he => Yaml.noConfusion he)⟩
  | bool b =>
      have hseg : ∀ s, Yaml.bool b ≠ Yaml.seq s := fun s hs => Yaml.noConfusion hs
      cases obj with
      | map entries =>
          have hc2 : mapGet entries (Yaml.bool b) = none := by
            rw [hop_key_map _ hseg] at hc; exact hc
          refine ⟨.noKey, ?_⟩
          rw [updateAt_key_map _ hseg, hc2]
      | null => exact ⟨.noKey, updateAt_key_notmap _ hseg rest _ v rn
          (fun e he => Yaml.noConfusion he)⟩
      | bool b2 => exact ⟨.noKey, updateAt_key_notmap _ hseg rest _ v rn
          (fun e he => Yaml.noConfusion he)⟩
      | num n2 => exact ⟨.noKey, updateAt_key_notmap _ hseg rest _ v rn
          (fun e he => Yaml.noConfusion he)⟩
      | str s2 => exact ⟨.noKey, updateAt_key_notmap _ hseg rest _ v rn
          (fun e he => Yaml.noConfusion he)⟩
      | seq s2 => exact ⟨.noKey, updateAt_key_notmap _ hseg rest _ v rn
          (fun e he => Yaml.noConfusion he)⟩
  | num n =>
      have hseg : ∀ s, Yaml.num n ≠ Yaml.seq s := fun s hs => Yaml.noConfusion hs
      cases obj with
      | map entries =>
          have hc2 : mapGet entries (Yaml.num n) = none := by
            rw [hop_key_map _ hseg] at hc; exact hc
          refine ⟨.noKey, ?_⟩
          rw [updateAt_key_map _ hseg, hc2]
      | null => exact ⟨.noKey, updateAt_key_notmap _ hseg rest _ v rn
          (fun e he => Yaml.noConfusion he)⟩
      | bool b2 => exact ⟨.noKey, updateAt_key_notmap _ hseg rest _ v rn
          (fun e he => Yaml.noConfusion he)⟩
      | num n2 => exact ⟨.noKey, updateAt_key_notmap _ hseg rest _ v rn
          (fun e he => Yaml.noConfusion he)⟩
      | str s2 => exact ⟨.noKey, updateAt_key_notmap _ hseg rest _ v rn
          (fun e he => Yaml.noConfusion he)⟩
      | seq s2 => exact ⟨.noKey, updateAt_key_notmap _ hseg rest _ v rn
          (fun e he => Yaml.noConfusion he)⟩
  | str s =>
      have hseg : ∀ s2, Yaml.str s ≠ Yaml.seq s2 := fun s2 hs => Yaml.noConfusion hs
      cases obj with
      | map entries =>
          have hc2 : mapGet entries (Yaml.str s) = none := by
            rw [hop_key_map _ hseg] at hc; exact hc
          refine ⟨.noKey, ?_⟩
          rw [updateAt_key_map _ hseg, hc2]
      | null => exact ⟨.noKey, updateAt_key_notmap _ hseg rest _ v rn
          (fun e he => Yaml.noConfusion he)⟩
      | bool b2 => exact ⟨.noKey, updateAt_key_notmap _ hseg rest _ v rn
          (fun e he => Yaml.noConfusion he)⟩
      | num n2 => exact ⟨.noKey, updateAt_key_notmap _ hseg rest _ v rn
          (fun e he => Yaml.noConfusion he)⟩
      | str s2 => exact ⟨.noKey, updateAt_key_notmap _ hseg rest _ v rn
          (fun e he => Yaml.noConfusion he)⟩
      | seq s2 => exact ⟨.noKey, updateAt_key_notmap _ hseg rest _ v rn
          (fun e he => Yaml.noConfusion he)⟩
  | map m =>
      have hseg : ∀ s, Yaml.map m ≠ Yaml.seq s := fun s hs => Yaml.noConfusion hs
      cases obj with
      | map entries =>
          have hc2 : mapGet entries (Yaml.map m) = none := by
            rw [hop_key_map _ hseg] at hc; exact hc
          refine ⟨.noKey, ?_⟩
          rw [updateAt_key_map _ hseg, hc2]
      | null => exact ⟨.noKey, updateAt_key_notmap _ hseg rest _ v rn
          (fun e he => Yaml.noConfusion he)⟩
      | bool b2 => exact ⟨.noKey, updateAt_key_notmap _ hseg rest _ v rn
          (fun e he => Yaml.noConfusion he)⟩
      | num n2 => exact ⟨.noKey, updateAt_key_notmap _ hseg rest _ v rn
          (fun e he => Yaml.noConfusion he)⟩
      | str s2 => exact ⟨.noKey, updateAt_key_notmap _ hseg rest _ v rn
          (fun e he => Yaml.noConfusion he)⟩
      | seq s2 => exact ⟨.noKey, updateAt_key_notmap _ hseg rest _ v rn
          (fun e he => Yaml.noConfusion he)⟩

/-- A successful `updateAt` on a nonempty path decomposes into one
successful hop, a successful recursive update of the child, and the
write-back of the updated child. -/
theorem updateAt_cons_ok (seg : Yaml) (rest : List Yaml) (obj v : Yaml)
    (rn : Bool) (d : Yaml)
    (h : updateAt (seg :: rest) obj v rn = .ok d) :
    ∃ c x, hop obj seg = some c ∧ updateAt rest c v rn = .ok x ∧
      d = setHop obj seg x := by
  cases hc : hop obj seg with
  | some c =>
      rw [updateAt_cons seg rest obj v rn c hc] at h
      obtain ⟨x, hx, hd⟩ := (exceptMap_eq_ok _ _ _).mp h
      exact ⟨c, x, rfl, hx, hd⟩
  | none =>
      obtain ⟨e, he⟩ := updateAt_cons_err seg rest obj v rn hc
      rw [he] at h
      exact Except.noConfusion h

/-- Forward characterization of a successful walk: success implies the
path resolves, the result is the rebuilt document with the new value at
the addressed node, and under require-null the resolved node was null. -/
theorem updateAt_ok (P : List Yaml) (obj v : Yaml) (rn : Bool) (d : Yaml)
    (h : updateAt P obj v rn = .ok d) :
    ∃ w, getPath obj P = some w ∧ d = setPath obj P v ∧
      (rn = true → w = .null) := by
  induction P generalizing obj d with
  | nil =>
      rw [updateAt_nil] at h
      by_cases hb : rn && !obj.isNull
      · rw [if_pos hb] at h
        exact Except.noConfusion h
      · rw [if_neg hb] at h
        have hd : v = d := by cases h; rfl
        refine ⟨obj, rfl, hd.symm, fun hrn => ?_⟩
        subst hrn
        cases hni : obj.isNull with
        | false => exact absurd (by rw [hni]; rfl) hb
        | true => exact (Yaml.isNull_iff obj).mp hni
  | cons seg rest ih =>
      obtain ⟨c, x, hc, hx, hd⟩ := updateAt_cons_ok seg rest obj v rn d h
      obtain ⟨w, hw, hxs, hrn⟩ := ih c x hx
      refine ⟨w, ?_, ?_, hrn⟩
      · simp only [getPath, hc, Option.some_bind]
        exact hw
      · simp only [setPath, hc]
        rw [hd, hxs]

/-- Backward: if the path resolves (and under require-null the resolved
node is null), the walk succeeds and overwrites the addressed node. -/
theorem updateAt_of_resolves (P : List Yaml) (obj w v : Yaml) (rn : Bool)
    (h : getPath obj P = some w) (hrn : rn = true → w = .null) :
    updateAt P obj v rn = .ok (setPath obj P v) := by
  induction P generalizing obj with
  | nil =>
      have hw : obj = w := by
        simp only [getPath] at h
        cases h; rfl
      rw [updateAt_nil]
      cases rn with
      | false => rfl
      | true =>
          have : obj = Yaml.null := hw.trans (hrn rfl)
          subst this
          rfl
  | cons seg rest ih =>
      simp only [getPath] at h
      cases hc : hop obj seg with
      | none => rw [hc] at h; exact Option.noConfusion h
      | some c =>
          rw [hc] at h
          simp only [Option.some_bind] at h
          rw [updateAt_cons seg rest obj v rn c hc, ih c h]
          simp only [Except.map]
          simp only [setPath, hc]

/-- If the path resolves to a non-null node, the require-null walk fails
with the precondition error. -/
theorem updateAt_precondition (P : List Yaml) (obj w v : Yaml)
    (h : getPath obj P = some w) (hw : w ≠ .null) :
    updateAt P obj v true = .error .preconditionFailed := by
  induction P generalizing obj with
  | nil =>
      have hobj : obj = w := by
        simp only [getPath] at h
        cases h; rfl
      subst hobj
      rw [updateAt_nil]
      have : obj.isNull = false := by
        cases hni : obj.isNull
        · rfl
        · exact absurd ((Yaml.isNull_iff obj).mp hni) hw
      rw [this]
      rfl
  | cons seg rest ih =>
      simp only [getPath] at h
      cases hc : hop obj seg with
      | none => rw [hc] at h; exact Option.noConfusion h
      | some c =>
          rw [hc] at h
          simp only [Option.some_bind] at h
          rw [updateAt_cons seg rest obj v true c hc, ih c h]
          rfl

/-- The walk on `pre ++ rest` factors through the node `pre` resolves
to: errors past the prefix surface unchanged, and a success rebuilds the
document around the updated node. -/
theorem updateAt_append (pre rest : List Yaml) (obj cur v : Yaml)
    (rn : Bool) (h : getPath obj pre = some cur) :
    updateAt (pre ++ rest) obj v rn =
      Except.map (fun x => setPath obj pre x) (updateAt rest cur v rn) := by
  induction pre generalizing obj with
  | nil =>
      have hobj : obj = cur := by
        simp only [getPath] at h
        cases h; rfl
      subst hobj
      simp only [List.nil_append, setPath]
      rw [exceptMap_id]
  | cons seg pre1 ih =>
      simp only [getPath] at h
      cases hc : hop obj seg with
      | none => rw [hc] at h; exact Option.noConfusion h
      | some c =>
          rw [hc] at h
          simp only [Option.some_bind] at h
          rw [List.cons_append, updateAt_cons seg (pre1 ++ rest) obj v rn c hc,
            ih c h, exceptMap_map]
          simp only [setPath, hc]

/-- After the overwrite, the path addresses the new value. -/
theorem getPath_setPath_self (P : List Yaml) (obj w v : Yaml)
    (h : getPath obj P = some w) :
    getPath (setPath obj P v) P = some v := by
  induction P generalizing obj with
  | nil => rfl
  | cons seg rest ih =>
      simp only [getPath] at h
      cases hc : hop obj seg with
      | none => rw [hc] at h; exact Option.noConfusion h
      | some c =>
          rw [hc] at h
          simp only [Option.some_bind] at h
          simp only [setPath, hc, getPath]
          rw [hop_setHop_self obj seg c (setPath c rest v) hc]
          simp only [Option.some_bind]
          exact ih c h

/-- Frame property of the overwrite: every path that neither extends the
replaced path nor is a prefix of it addresses the same node before and
after. -/
theorem getPath_setPath_disjoint (P : List Yaml) (obj w v : Yaml)
    (Q : List Yaml) (h : getPath obj P = some w) (hPQ : ¬ P <+: Q)
    (hQP : ¬ Q <+: P) :
    getPath (setPath obj P v) Q = getPath obj Q := by
  induction P generalizing obj Q with
  | nil => exact absurd (List.nil_prefix) hPQ
  | cons seg rest ih =>
      cases Q with
      | nil => exact absurd (List.nil_prefix) hQP
      | cons q Q1 =>
          simp only [getPath] at h
          cases hc : hop obj seg with
          | none => rw [hc] at h; exact Option.noConfusion h
          | some c =>
              rw [hc] at h
              simp only [Option.some_bind] at h
              simp only [setPath, hc]
              by_cases hq : q = seg
              · subst hq
                have hPQ1 : ¬ rest <+: Q1 := fun hp =>
                  hPQ (List.cons_prefix_cons.mpr ⟨rfl, hp⟩)
                have hQP1 : ¬ Q1 <+: rest := fun hp =>
                  hQP (List.cons_prefix_cons.mpr ⟨rfl, hp⟩)
                simp only [getPath]
                rw [hop_setHop_self obj q c (setPath c rest v) hc, hc]
                simp only [Option.some_bind]
                exact ih c Q1 h hPQ1 hQP1
              · simp only [getPath]
                rw [hop_setHop_ne obj seg c (setPath c rest v) q hc hq]

/-- Overwriting the same path with the same value twice gives the result
of doing it once. -/
theorem setPath_setPath (P : List Yaml) (obj w v : Yaml)
    (h : getPath obj P = some w) :
    setPath (setPath obj P v) P v = setPath obj P v := by
  induction P generalizing obj with
  | nil => rfl
  | cons seg rest ih =>
      simp only [getPath] at h
      cases hc : hop obj seg with
      | none => rw [hc] at h; exact Option.noConfusion h
      | some c =>
          rw [hc] at h
          simp only [Option.some_bind] at h
          simp only [setPath, hc]
          rw [hop_setHop_self obj seg c (setPath c rest v) hc]
          show setHop (setHop obj seg (setPath c rest v)) seg
              (setPath (setPath c rest v) rest v) =
            setHop obj seg (setPath c rest v)
          rw [ih c h]
          exact setHop_setHop obj seg c (setPath c rest v) (setPath c rest v) hc

/-! ## Structure of the substitution pass -/

theorem exceptBind_eq_ok {ε α β : Type} (e : Except ε α)
    (f : α → Except ε β) (b : β) :
    (e >>= f) = .ok b ↔ ∃ a, e = .ok a ∧ f a = .ok b := by
  cases e with
  | error err => simp [Bind.bind, Except.bind]
  | ok a => simp [Bind.bind, Except.bind]

/-- A successful substitution pass over a mapping keeps the key list
unchanged: only values are visited. -/
theorem substPairs_keys (env : String → Option String)
    (parse : String → Option Yaml) (tbl : List (String × String))
    (entries out : List (Yaml × Yaml))
    (h : substPairs env parse tbl entries = .ok out) :
    out.map Prod.fst = entries.map Prod.fst := by
  induction entries generalizing out with
  | nil =>
      have : ([] : List (Yaml × Yaml)) = out := by
        cases h; rfl
      rw [← this]
  | cons e rest ih =>
      obtain ⟨k, v⟩ := e
      simp only [substPairs] at h
      rw [exceptBind_eq_ok] at h
      obtain ⟨v1, hv1, h2⟩ := h
      rw [exceptBind_eq_ok] at h2
      obtain ⟨rest1, hrest1, h3⟩ := h2
      have hout : (k, v1) :: rest1 = out := by
        cases h3; rfl
      rw [← hout]
      simp only [List.map_cons]
      rw [ih rest1 hrest1]

/-! ## The claims -/

/-- C1: for every document D and path P that resolves in D, the
replacement (`update_value` with require-null off) succeeds and yields
the document with the node at P replaced by the parsed new value; the
node addressed by P in the result is that value, and every path that is
neither an extension nor a prefix of P addresses the same node as
before (a failure of the embedded function returns no document at all,
so the caller's document is untouched in every other case). -/
theorem update_value_frame (D W V : Yaml) (P : List Yaml)
    (h : getPath D P = some W) :
    update_value D (.seq P) V false = .ok (setPath D P V) ∧
    getPath (setPath D P V) P = some V ∧
    ∀ Q : List Yaml, ¬ P <+: Q → ¬ Q <+: P →
      getPath (setPath D P V) Q = getPath D Q := by
  refine ⟨?_, getPath_setPath_self P D W V h, fun Q hPQ hQP =>
    getPath_setPath_disjoint P D W V Q h hPQ hQP⟩
  show updateAt P D V false = .ok (setPath D P V)
  exact updateAt_of_resolves P D W V false h (fun hf => Bool.noConfusion hf)

/-- Witness for C1 at the spec's end-to-end example: the path resolves
to 2, the replacement by 99 yields the expected document, and the
disjoint sibling path `[a, b, [0]]` addresses the same node 1 before
and after. -/
theorem update_value_frame_witness :
    getPath exDoc exPath = some (.num 2) ∧
    setPath exDoc exPath (.num 99) =
      .map [(.str "a", .map [(.str "b", .seq [.num 1, .num 99, .num 3])])] ∧
    update_value exDoc (.seq exPath) (.num 99) false =
      .ok (setPath exDoc exPath (.num 99)) ∧
    getPath (setPath exDoc exPath (.num 99)) exPath = some (.num 99) ∧
    getPath (setPath exDoc exPath (.num 99))
        [.str "a", .str "b", .seq [.num 0]] =
      getPath exDoc [.str "a", .str "b", .seq [.num 0]] ∧
    getPath exDoc [.str "a", .str "b", .seq [.num 0]] = some (.num 1) :=
  ⟨rfl, rfl,
   (update_value_frame exDoc (.num 2) (.num 99) exPath rfl).1,
   (update_value_frame exDoc (.num 2) (.num 99) exPath rfl).2.1,
   (update_value_frame exDoc (.num 2) (.num 99) exPath rfl).2.2
     [.str "a", .str "b", .seq [.num 0]] (by decide) (by decide),
   rfl⟩

/-- C2: when the walk reaches a key segment naming a key absent from
the current mapping (or reaches it at a non-mapping node), the call
fails with the "No key" error, which the spec classifies as
PathNotFound, and never returns a document: the embedding returns
`.error`, which corresponds to the Rust process exiting before the
single mutation site, leaving the document unchanged. -/
theorem update_value_missing_key (D cur V k : Yaml) (pre tail : List Yaml)
    (rn : Bool) (hpre : getPath D pre = some cur) (hk : ∀ s, k ≠ .seq s)
    (hmiss : (∀ entries, cur ≠ .map entries) ∨
      ∃ entries, cur = .map entries ∧ mapGet entries k = none) :
    update_value D (.seq (pre ++ k :: tail)) V rn = .error .noKey ∧
    UpdateError.noKey.category = .pathNotFound ∧
    ∀ d, update_value D (.seq (pre ++ k :: tail)) V rn ≠ .ok d := by
  have hstep : updateAt (k :: tail) cur V rn = .error .noKey := by
    rcases hmiss with hnm | ⟨entries, hcur, hnone⟩
    · exact updateAt_key_notmap k hk tail cur V rn hnm
    · subst hcur
      rw [updateAt_key_map k hk tail entries V rn, hnone]
  have hmain : update_value D (.seq (pre ++ k :: tail)) V rn =
      .error .noKey := by
    show updateAt (pre ++ k :: tail) D V rn = .error .noKey
    rw [updateAt_append pre (k :: tail) D cur V rn hpre, hstep]
    rfl
  exact ⟨hmain, rfl, fun d hd => by
    rw [hmain] at hd; exact Except.noConfusion hd⟩

/-- Witness for C2: looking up the absent key `zz` under `a` in the
example document fails with the PathNotFound-classified error. -/
theorem update_value_missing_key_witness :
    update_value exDoc (.seq ([.str "a"] ++ .str "zz" :: [])) (.num 1)
      false = .error .noKey ∧
    UpdateError.noKey.category = .pathNotFound :=
  ⟨(update_value_missing_key exDoc
      (.map [(.str "b", .seq [.num 1, .num 2, .num 3])]) (.num 1)
      (.str "zz") [.str "a"] [] false rfl
      (fun s hs => Yaml.noConfusion hs) (.inr ⟨_, rfl, rfl⟩)).1,
   (update_value_missing_key exDoc
      (.map [(.str "b", .seq [.num 1, .num 2, .num 3])]) (.num 1)
      (.str "zz") [.str "a"] [] false rfl
      (fun s hs => Yaml.noConfusion hs) (.inr ⟨_, rfl, rfl⟩)).2.1⟩

/-- C3: a non-sequence segment is resolved as a mapping key, compared
by structural equality of the parsed value (so integer or boolean keys
are valid); if the current node is not a mapping or lacks the key, the
call fails with the "No key" error, classified PathNotFound. -/
theorem update_value_key_lookup (seg : Yaml) (hseg : ∀ s, seg ≠ .seq s)
    (rest : List Yaml) (obj v : Yaml) (rn : Bool) :
    (∀ entries child, obj = .map entries → mapGet entries seg = some child →
      update_value obj (.seq (seg :: rest)) v rn =
        Except.map (fun c => Yaml.map (mapSet entries seg c))
          (updateAt rest child v rn)) ∧
    (∀ entries, obj = .map entries → mapGet entries seg = none →
      update_value obj (.seq (seg :: rest)) v rn = .error .noKey) ∧
    ((∀ entries, obj ≠ .map entries) →
      update_value obj (.seq (seg :: rest)) v rn = .error .noKey) ∧
    UpdateError.noKey.category = .pathNotFound := by
  refine ⟨?_, ?_, ?_, rfl⟩
  · intro entries child hobj hchild
    subst hobj
    show updateAt (seg :: rest) (.map entries) v rn = _
    rw [updateAt_key_map seg hseg, hchild]
  · intro entries hobj hnone
    subst hobj
    show updateAt (seg :: rest) (.map entries) v rn = _
    rw [updateAt_key_map seg hseg, hnone]
  · intro hnm
    show updateAt (seg :: rest) obj v rn = _
    exact updateAt_key_notmap seg hseg rest obj v rn hnm

/-- Witness for C3: integer key 2 and boolean key true resolve in a
mapping with non-string keys; a scalar current node fails. -/
theorem update_value_key_lookup_witness :
    (update_value (.map exNonStrKeys) (.seq [.num 2]) (.num 9) false =
      Except.map (fun c => Yaml.map (mapSet exNonStrKeys (.num 2) c))
        (updateAt [] .null (.num 9) false)) ∧
    (update_value (.map exNonStrKeys) (.seq [.bool true]) (.num 9) false =
      Except.map (fun c => Yaml.map (mapSet exNonStrKeys (.bool true) c))
        (updateAt [] (.num 7) (.num 9) false)) ∧
    (update_value (.num 5) (.seq [.str "k"]) (.num 9) false =
      .error .noKey) :=
  ⟨(update_value_key_lookup (.num 2) (fun s hs => Yaml.noConfusion hs) []
      (.map exNonStrKeys) (.num 9) false).1 exNonStrKeys .null rfl rfl,
   (update_value_key_lookup (.bool true) (fun s hs => Yaml.noConfusion hs)
      [] (.map exNonStrKeys) (.num 9) false).1 exNonStrKeys (.num 7)
      rfl rfl,
   (update_value_key_lookup (.str "k") (fun s hs => Yaml.noConfusion hs)
      [] (.num 5) (.num 9) false).2.2.1
      (fun e he => Yaml.noConfusion he)⟩

/-- Counterexample to C4 as stated: a path containing the length-2
sequence segment `[0, 1]` does not always fail with the unsupported-path
error — on the empty mapping with path `[a, [0, 1]]` the walk fails at
the earlier key segment `a` with the "No key" (PathNotFound) error,
because the offending segment is never reached. -/
theorem update_value_multi_index_cex :
    update_value (.map []) (.seq [.str "a", .seq [.num 0, .num 1]])
      (.num 99) false = .error .noKey ∧
    UpdateError.noKey ≠ UpdateError.unsupportedPath :=
  ⟨rfl, by decide⟩

/-- C4 (amended): a path containing a sequence segment whose length is
not 1 never succeeds, and when the segments before it resolve, the call
fails with the unsupported-path error ("multiple sequence indexes are
not supported") regardless of the contents of the node reached; in
every case the embedding returns `.error` and no document. -/
theorem update_value_multi_index (D V : Yaml) (pre tail s : List Yaml)
    (rn : Bool) (hlen : s.length ≠ 1) :
    (∀ d : Yaml,
      update_value D (.seq (pre ++ .seq s :: tail)) V rn ≠ .ok d) ∧
    (∀ cur : Yaml, getPath D pre = some cur →
      update_value D (.seq (pre ++ .seq s :: tail)) V rn =
        .error .unsupportedPath) := by
  have hs : ∀ e, s ≠ [e] := fun e he => by rw [he] at hlen; simp at hlen
  constructor
  · intro d hd
    have hd2 : updateAt (pre ++ .seq s :: tail) D V rn = .ok d := hd
    obtain ⟨w, hw, hd3, hrn⟩ := updateAt_ok _ _ _ _ _ hd2
    rw [getPath_append] at hw
    cases hc : getPath D pre with
    | none => rw [hc] at hw; exact Option.noConfusion hw
    | some cur =>
        rw [hc] at hw
        simp only [Option.some_bind, getPath] at hw
        rw [hop_badseq s hs cur] at hw
        exact Option.noConfusion hw
  · intro cur hpre
    show updateAt (pre ++ .seq s :: tail) D V rn = _
    rw [updateAt_append pre (.seq s :: tail) D cur V rn hpre,
      updateAt_badseq s hs tail cur V rn]
    rfl

/-- Witness for C4 (amended): with the prefix `[a]` resolving in the
example document, the path `[a, [0, 1]]` fails with the
unsupported-path error. -/
theorem update_value_multi_index_witness :
    update_value exDoc (.seq ([.str "a"] ++ .seq [.num 0, .num 1] :: []))
      (.num 99) false = .error .unsupportedPath :=
  (update_value_multi_index exDoc (.num 99) [.str "a"] []
    [.num 0, .num 1] false (by decide)).2
    (.map [(.str "b", .seq [.num 1, .num 2, .num 3])]) rfl

/-- Counterexample to C5 as stated: a path containing the index segment
`[-1]` does not always fail with a PathNotFound- or
MalformedPath-classified error — when it is preceded by the length-2
segment `[0, 1]`, the walk fails there first with UnsupportedPath,
which belongs to neither class. -/
theorem update_value_invalid_index_cex :
    update_value .null (.seq [.seq [.num 0, .num 1], .seq [.num (-1)]])
      (.num 7) false = .error .unsupportedPath ∧
    UpdateError.unsupportedPath.category ≠ ErrCategory.pathNotFound ∧
    UpdateError.unsupportedPath.category ≠ ErrCategory.malformedPath :=
  ⟨rfl, by decide, by decide⟩

/-- C5 (amended): a path containing an index segment whose sole element
is a negative number or not a number at all never succeeds, for any
document; moreover, when the walk reaches that segment (the segments
before it resolve), the call fails with the "Invalid sequence index"
error — classified MalformedPath per the spec's rule that such a
segment must fail decoding — so the index is never truncated, wrapped
or reinterpreted, and no document is produced. -/
theorem update_value_invalid_index (D V : Yaml) (pre tail : List Yaml)
    (e : Yaml) (rn : Bool)
    (he : (∃ n : Int, e = .num n ∧ n < 0) ∨ (∀ n : Int, e ≠ .num n)) :
    (∀ d : Yaml,
      update_value D (.seq (pre ++ .seq [e] :: tail)) V rn ≠ .ok d) ∧
    (∀ cur : Yaml, getPath D pre = some cur →
      update_value D (.seq (pre ++ .seq [e] :: tail)) V rn =
        .error .invalidIndex) ∧
    UpdateError.invalidIndex.category = .malformedPath := by
  have hhop : ∀ cur : Yaml, hop cur (.seq [e]) = none := by
    intro cur
    rcases he with ⟨n, hen, hneg⟩ | hnn
    · subst hen
      exact hop_index_neg n (by omega) cur
    · exact hop_badidx e hnn cur
  have hstep : ∀ cur : Yaml, updateAt (.seq [e] :: tail) cur V rn =
      .error .invalidIndex := by
    intro cur
    rcases he with ⟨n, hen, hneg⟩ | hnn
    · subst hen
      exact updateAt_index_neg n (by omega) tail cur V rn
    · exact updateAt_badidx e hnn tail cur V rn
  refine ⟨?_, ?_, rfl⟩
  · intro d hd
    have hd2 : updateAt (pre ++ .seq [e] :: tail) D V rn = .ok d := hd
    obtain ⟨w, hw, hd3, hrn⟩ := updateAt_ok _ _ _ _ _ hd2
    rw [getPath_append] at hw
    cases hc : getPath D pre with
    | none => rw [hc] at hw; exact Option.noConfusion hw
    | some cur =>
        rw [hc] at hw
        simp only [Option.some_bind, getPath] at hw
        rw [hhop cur] at hw
        exact Option.noConfusion hw
  · intro cur hpre
    show updateAt (pre ++ .seq [e] :: tail) D V rn = _
    rw [updateAt_append pre (.seq [e] :: tail) D cur V rn hpre, hstep cur]
    rfl

/-- Witness for C5 (amended): the index segments `[-1]` and `[x]` both
fail with the invalid-index error at the root of the example document. -/
theorem update_value_invalid_index_witness :
    update_value exDoc (.seq ([] ++ .seq [.num (-1)] :: [])) (.num 7)
      false = .error .invalidIndex ∧
    update_value exDoc (.seq ([] ++ .seq [.str "x"] :: [])) (.num 7)
      false = .error .invalidIndex ∧
    UpdateError.invalidIndex.category = .malformedPath :=
  ⟨(update_value_invalid_index exDoc (.num 7) [] [] (.num (-1)) false
      (.inl ⟨-1, rfl, by decide⟩)).2.1 exDoc rfl,
   (update_value_invalid_index exDoc (.num 7) [] [] (.str "x") false
      (.inr (fun n hn => Yaml.noConfusion hn))).2.1 exDoc rfl,
   (update_value_invalid_index exDoc (.num 7) [] [] (.num (-1)) false
      (.inl ⟨-1, rfl, by decide⟩)).2.2⟩

/-- C6: with require-null set and a fully resolving path, the call
fails with the precondition error when the resolved node is not null
(producing no document, so nothing is mutated), and succeeds and
overwrites the node when it is null. -/
theorem update_value_require_null (D cur V : Yaml) (P : List Yaml)
    (h : getPath D P = some cur) :
    (cur ≠ .null →
      update_value D (.seq P) V true = .error .preconditionFailed) ∧
    (cur = .null →
      update_value D (.seq P) V true = .ok (setPath D P V) ∧
      getPath (setPath D P V) P = some V) := by
  constructor
  · intro hne
    show updateAt P D V true = _
    exact updateAt_precondition P D cur V h hne
  · intro heq
    refine ⟨?_, getPath_setPath_self P D cur V h⟩
    show updateAt P D V true = _
    exact updateAt_of_resolves P D cur V true h (fun _ => heq)

/-- Witness for C6: a node holding false fails the precondition; a node
holding null is overwritten by 5. -/
theorem update_value_require_null_witness :
    update_value (.map [(.str "a", .bool false)]) (.seq [.str "a"])
      (.num 5) true = .error .preconditionFailed ∧
    update_value (.map [(.str "a", .null)]) (.seq [.str "a"]) (.num 5)
      true = .ok (setPath (.map [(.str "a", .null)]) [.str "a"] (.num 5)) ∧
    setPath (.map [(.str "a", .null)]) [.str "a"] (.num 5) =
      .map [(.str "a", .num 5)] :=
  ⟨(update_value_require_null (.map [(.str "a", .bool false)])
      (.bool false) (.num 5) [.str "a"] rfl).1 (by decide),
   ((update_value_require_null (.map [(.str "a", .null)]) .null (.num 5)
      [.str "a"] rfl).2 rfl).1,
   rfl⟩

/-- C9: replacing at a resolving path and then applying the very same
replacement to the result gives the same document again. -/
theorem update_value_idempotent (D W V : Yaml) (P : List Yaml)
    (h : getPath D P = some W) :
    update_value D (.seq P) V false = .ok (setPath D P V) ∧
    update_value (setPath D P V) (.seq P) V false =
      .ok (setPath D P V) := by
  constructor
  · show updateAt P D V false = _
    exact updateAt_of_resolves P D W V false h (fun hf => Bool.noConfusion hf)
  · show updateAt P (setPath D P V) V false = _
    have h2 : getPath (setPath D P V) P = some V :=
      getPath_setPath_self P D W V h
    have h3 := updateAt_of_resolves P (setPath D P V) V V false h2
      (fun hf => Bool.noConfusion hf)
    rw [h3, setPath_setPath P D W V h]

/-- Witness for C9 at the end-to-end example. -/
theorem update_value_idempotent_witness :
    update_value exDoc (.seq exPath) (.num 99) false =
      .ok (setPath exDoc exPath (.num 99)) ∧
    update_value (setPath exDoc exPath (.num 99)) (.seq exPath) (.num 99)
      false = .ok (setPath exDoc exPath (.num 99)) :=
  update_value_idempotent exDoc (.num 2) (.num 99) exPath rfl

/-- C7: the pipeline of `main` applies the replacements strictly in
caller-supplied order against the evolving document — the run on a
nonempty list first performs the head replacement and only continues
with the tail on its success — and the substitution pass runs exactly
once, after the last replacement (the run on the empty list is exactly
one substitution pass).  The concrete run shows a later path addressing
a node introduced by an earlier replacement, and a replacement value
holding a placeholder being substituted by the final pass. -/
theorem run_transform_order (obj : Yaml) (rn : Bool)
    (env : String → Option String) (parse : String → Option Yaml)
    (vars : List String) :
    (run_transform obj [] rn env parse vars =
      Except.mapError RunError.subst (substitute_env env parse vars obj)) ∧
    (∀ (p v : Yaml) (rest : List (Yaml × Yaml)),
      run_transform obj ((p, v) :: rest) rn env parse vars =
        match update_value obj p v rn with
        | .ok obj1 => run_transform obj1 rest rn env parse vars
        | .error e => .error (.update e)) ∧
    run_transform (.map [(.str "a", .null)]) exReps false envFoo42
      parseFoo42 ["FOO"] =
      .ok (.map [(.str "a", .map [(.str "b", .num 42)])]) := by
  refine ⟨?_, ?_, rfl⟩
  · cases hsub : substitute_env env parse vars obj <;>
      simp [run_transform, apply_replacements, hsub, Except.mapError]
  · intro p v rest
    cases hu : update_value obj p v rn with
    | ok obj1 => simp [run_transform, apply_replacements, hu]
    | error e => simp [run_transform, apply_replacements, hu]

/-- C8: the substitution pass replaces a string scalar exactly when the
whole string is a key of the placeholder table (a placeholder token of
a declared variable), putting the parsed environment value in its
place; any other string is left as is, non-string scalars are left as
is, and a substituted mapping keeps its keys (only values are
visited).  The last conjunct is the spec's example with FOO=hello. -/
theorem substitute_env_exact (vars : List String)
    (env : String → Option String) (parse : String → Option Yaml) :
    (∀ (s var raw : String) (w : Yaml),
      (placeholderTable vars).lookup s = some var →
      env var = some raw → parse raw = some w →
      substitute_env env parse vars (.str s) = .ok w) ∧
    (∀ s : String, (placeholderTable vars).lookup s = none →
      substitute_env env parse vars (.str s) = .ok (.str s)) ∧
    (substitute_env env parse vars .null = .ok .null) ∧
    (∀ b, substitute_env env parse vars (.bool b) = .ok (.bool b)) ∧
    (∀ n : Int, substitute_env env parse vars (.num n) = .ok (.num n)) ∧
    (∀ (entries : List (Yaml × Yaml)) (out : Yaml),
      substitute_env env parse vars (.map entries) = .ok out →
      ∃ entries1, out = .map entries1 ∧
        entries1.map Prod.fst = entries.map Prod.fst) ∧
    substitute_env envFoo parseFoo ["FOO"] exSubstDoc = .ok exSubstOut := by
  refine ⟨?_, ?_, rfl, fun b => rfl, fun n => rfl, ?_, rfl⟩
  · intro s var raw w hlk henv hp
    simp only [substitute_env, do_substitute_env, hlk, henv, hp]
  · intro s hlk
    simp only [substitute_env, do_substitute_env, hlk]
  · intro entries out h
    simp only [substitute_env, do_substitute_env] at h
    rw [exceptBind_eq_ok] at h
    obtain ⟨entries1, h1, h2⟩ := h
    have hout : Yaml.map entries1 = out := by cases h2; rfl
    exact ⟨entries1, hout.symm, substPairs_keys _ _ _ _ _ h1⟩

/-- Witness for C8: the token of FOO as a whole string is substituted
by the parsed value of FOO=hello; the string containing it as a proper
substring is not in the table and stays as it was. -/
theorem substitute_env_exact_witness :
    ((placeholderTable ["FOO"]).lookup "\x7b\x7bFOO\x7d\x7d" =
        some "FOO" ∧
      envFoo "FOO" = some "hello" ∧
      parseFoo "hello" = some (.str "hello") ∧
      substitute_env envFoo parseFoo ["FOO"] (.str "\x7b\x7bFOO\x7d\x7d") =
        .ok (.str "hello")) ∧
    ((placeholderTable ["FOO"]).lookup "x\x7b\x7bFOO\x7d\x7dy" = none ∧
      substitute_env envFoo parseFoo ["FOO"]
        (.str "x\x7b\x7bFOO\x7d\x7dy") = .ok (.str "x\x7b\x7bFOO\x7d\x7dy")) :=
  ⟨⟨rfl, rfl, rfl,
    (substitute_env_exact ["FOO"] envFoo parseFoo).1 _ _ _ _ rfl rfl rfl⟩,
   ⟨rfl, (substitute_env_exact ["FOO"] envFoo parseFoo).2.1 _ rfl⟩⟩

/-- C10: the substitution pass is a single traversal: when a matching
string scalar is replaced by the parsed environment value, that value
is inserted exactly as parsed and not revisited, so placeholder tokens
inside it stay in the output. -/
theorem substitute_env_single_pass (vars : List String)
    (env : String → Option String) (parse : String → Option Yaml)
    (s var raw : String) (w : Yaml)
    (hlk : (placeholderTable vars).lookup s = some var)
    (henv : env var = some raw) (hp : parse raw = some w) :
    substitute_env env parse vars (.seq [.str s]) = .ok (.seq [w]) := by
  simp only [substitute_env, do_substitute_env, substItems, hlk, henv, hp]
  rfl

/-- Witness for C10: variable A holds the placeholder text of variable
B, which is itself declared (so a revisit would have replaced it with
zzz); the output keeps the token of B verbatim. -/
theorem substitute_env_single_pass_witness :
    substitute_env envAB parseAB ["A", "B"]
      (.seq [.str "\x7b\x7bA\x7d\x7d"]) =
      .ok (.seq [.str "\x7b\x7bB\x7d\x7d"]) ∧
    (placeholderTable ["A", "B"]).lookup "\x7b\x7bB\x7d\x7d" = some "B" ∧
    envAB "B" = some "zzz" :=
  ⟨substitute_env_single_pass ["A", "B"] envAB parseAB
      "\x7b\x7bA\x7d\x7d" "A" "\x7b\x7bB\x7d\x7d"
      (.str "\x7b\x7bB\x7d\x7d") rfl rfl rfl,
   rfl, rfl⟩

/-- Witness for C7: the empty-replacement run on a concrete document is
exactly one substitution pass. -/
theorem run_transform_order_witness :
    run_transform (.map [(.str "a", .null)]) [] false envFoo42
      parseFoo42 ["FOO"] =
      Except.mapError RunError.subst (substitute_env envFoo42 parseFoo42
        ["FOO"] (.map [(.str "a", .null)])) :=
  (run_transform_order (.map [(.str "a", .null)]) false envFoo42
    parseFoo42 ["FOO"]).1
